import Mathlib

/-!
Shallow embedding of the ClipScutter automation repository
(`csv_reader.py`, `web_automation.py`, `run_automation.py`).

Python strings are modelled as `List Char`; Python lists as `List`;
Python dicts (which preserve insertion order) as association lists
`List (key × value)` in insertion order.  Fallible operations return
`Option`; functions that catch all exceptions and return a default are
modelled as total functions returning that default on the failure path.
-/

namespace ClipCutter

/-! ## Python string primitives -/

/-- Value of a decimal digit string, accumulated left to right.
Models Python `int(x)` on a string of decimal digits. -/
def valDigits (l : List Char) : Nat :=
  l.foldl (fun a c => 10 * a + (c.toNat - 48)) 0

/-- Model of Python `int(x)` restricted to the inputs the repository feeds
it: `some` of the value on a non-empty all-digit string, `none` (a raised
`ValueError`) otherwise. -/
def pythonInt (l : List Char) : Option Nat :=
  if l ≠ [] ∧ l.all Char.isDigit then some (valDigits l) else none

/-- Model of Python `s.split(':')`: `"".split(':') == ['']`,
`"a:b".split(':') == ['a','b']`, etc. -/
def splitOnColon : List Char → List (List Char)
  | [] => [[]]
  | c :: cs =>
    if c = ':' then [] :: splitOnColon cs
    else
      match splitOnColon cs with
      | [] => [[c]]
      | l :: ls => (c :: l) :: ls

/-- Model of Python `s.strip()` (ASCII whitespace). -/
def pythonStrip (l : List Char) : List Char :=
  ((l.dropWhile Char.isWhitespace).reverse.dropWhile Char.isWhitespace).reverse

/-- Model of the Python substring test `needle in hay`. -/
def containsSub (needle : List Char) : List Char → Bool
  | [] => needle.isEmpty
  | c :: cs => needle.isPrefixOf (c :: cs) || containsSub needle cs

/-- Decimal digit character for `d < 10`. -/
def digitChar (d : Nat) : Char := Char.ofNat (48 + d)

/-- Decimal representation of a natural number, as Python `f"{n:d}"`
produces it (most significant digit first, `"0"` for zero). -/
def natDigits (n : Nat) : List Char :=
  if n = 0 then ['0'] else ((Nat.digits 10 n).map digitChar).reverse

/-- Model of Python `f"{n:02d}"`: zero-pad to width 2. -/
def pad2 (n : Nat) : List Char :=
  if n < 10 then '0' :: natDigits n else natDigits n

/-! ## `csv_reader.py`: `ClipData`, validation, loading, grouping -/

/-- The `ClipData` dataclass of `csv_reader.py`. -/
structure ClipData where
  start_time : List Char
  end_time : List Char
  youtube_url : List Char
  row_number : Nat
deriving DecidableEq, Repr

/-- `CSVReader.validate_time_format`: split on `':'`, require exactly three
fields, each a non-empty digit string (`str.isdigit`), with the minutes and
seconds fields below 60.  Any exception is caught and yields `False`. -/
def validate_time_format (s : List Char) : Bool :=
  match splitOnColon s with
  | [h, m, sec] =>
    h ≠ [] && h.all Char.isDigit &&
    (m ≠ [] && m.all Char.isDigit) &&
    (sec ≠ [] && sec.all Char.isDigit) &&
    valDigits m < 60 && valDigits sec < 60
  | _ => false

/-- List of the domain strings in `CSVReader.validate_youtube_url`. -/
def youtubeDomains : List (List Char) :=
  ["youtube.com".toList, "youtu.be".toList, "www.youtube.com".toList]

/-- `CSVReader.validate_youtube_url`: `any(domain in url for domain in
youtube_domains) and url.startswith('http')`.  Note both tests are plain
substring / prefix tests on the whole URL string. -/
def validate_youtube_url (url : List Char) : Bool :=
  youtubeDomains.any (fun d => containsSub d url) && "http".toList.isPrefixOf url

/-- One iteration of the row loop of `CSVReader.read_csv`: a row (a list of
CSV fields) with its 1-based row number either yields a `ClipData` or is
recorded invalid (`none`). -/
def parseRow (rowNum : Nat) (row : List (List Char)) : Option ClipData :=
  match row with
  | r0 :: r1 :: r2 :: _ =>
    if validate_time_format (pythonStrip r0) then
      if validate_time_format (pythonStrip r1) then
        if validate_youtube_url (pythonStrip r2) then
          some ⟨pythonStrip r0, pythonStrip r1, pythonStrip r2, rowNum⟩
        else none
      else none
    else none
  | _ => none

/-- Row-loop body of `CSVReader.read_csv` over already-tokenised rows
(`csv.reader` output), with 1-based enumeration as in
`enumerate(csv_reader, 1)`.  Invalid rows are skipped (`continue`), never
fatal. -/
def read_csv_rows (rows : List (List (List Char))) : List ClipData :=
  (rows.enumFrom 1).filterMap (fun p => parseRow p.1 p.2)

/-- One step of the `defaultdict(list)` loop in
`CSVReader.group_clips_by_url`: append `c` to the entry of its URL,
creating the entry at the end on first occurrence (Python dicts preserve
insertion order). -/
def insertClip (m : List (List Char × List ClipData)) (c : ClipData) :
    List (List Char × List ClipData) :=
  match m with
  | [] => [(c.youtube_url, [c])]
  | (u, l) :: rest =>
    if u = c.youtube_url then (u, l ++ [c]) :: rest
    else (u, l) :: insertClip rest c

/-- The grouping loop of `CSVReader.group_clips_by_url` before the
per-group sort. -/
def groupRaw (clips : List ClipData) : List (List Char × List ClipData) :=
  clips.foldl insertClip []

/-- Ordering used by `url_clips.sort(key=lambda x: x.row_number)`. -/
def rowLe (a b : ClipData) : Prop := a.row_number ≤ b.row_number

instance : DecidableRel rowLe := fun _ _ => Nat.decLe _ _

instance : IsTotal ClipData rowLe := ⟨fun _ _ => Nat.le_total _ _⟩

instance : IsTrans ClipData rowLe := ⟨fun _ _ _ => Nat.le_trans⟩

instance : IsRefl ClipData rowLe := ⟨fun _ => Nat.le_refl _⟩

/-- Python's `list.sort` is a stable sort by the key; `List.insertionSort`
with `rowLe` is stable in the same sense, so it models
`url_clips.sort(key=lambda x: x.row_number)` exactly. -/
def sortRow (l : List ClipData) : List ClipData := l.insertionSort rowLe

/-- `CSVReader.group_clips_by_url`: group by URL in first-occurrence key
order, then stably sort each group by `row_number`. -/
def group_clips_by_url (clips : List ClipData) :
    List (List Char × List ClipData) :=
  (groupRaw clips).map (fun p => (p.1, sortRow p.2))

/-- Concatenation of the groups' clip lists, in group order. -/
def joinGroups (g : List (List Char × List ClipData)) : List ClipData :=
  (g.map Prod.snd).flatten

/-- First occurrences of the clips' URLs, skipping those already in `ks`:
the key order a Python `defaultdict` produces when fed `clips` with the
keys of `ks` already present. -/
def newKeys (ks : List (List Char)) : List ClipData → List (List Char)
  | [] => []
  | c :: cs =>
    if c.youtube_url ∈ ks then newKeys ks cs
    else c.youtube_url :: newKeys (c.youtube_url :: ks) cs

/-! ## `web_automation.py`: resilient locator and actuator -/

/-- Abstract DOM element handle; `displayed` records whether the element is
currently displayed (Selenium `is_displayed`). -/
structure Element where
  elemId : Nat
  displayed : Bool
deriving DecidableEq, Repr

/-- Outcome of one `WebDriverWait(...).until(...)` poll. -/
inductive PollResult where
  | found (e : Element)
  | timedOut
deriving DecidableEq, Repr

/-- Semantics of `WebDriverWait(driver, timeout).until(
EC.presence_of_element_located((By.XPATH, sel)))` against a document state
`doc` mapping each selector to the elements matching it: the first matching
element is returned as soon as one is present — `presence_of_element_located`
does not require the element to be displayed — and a `TimeoutException` is
raised (modelled as `timedOut`) when no element ever matches. -/
def presencePoll (doc : List Char → List Element) (sel : List Char) : PollResult :=
  match doc sel with
  | [] => .timedOut
  | e :: _ => .found e

/-- Instrumented `ClipScutterWebAutomation.find_element_with_multiple_selectors`:
iterate the selector list in order; per selector, poll for presence; on
`TimeoutException` fall through to the next selector (`continue`); return the
first element found, or `none` after the loop.  The second component records
which selectors were actually polled. -/
def findElementTrace (doc : List Char → List Element) :
    List (List Char) → Option Element × List (List Char)
  | [] => (none, [])
  | sel :: rest =>
    match presencePoll doc sel with
    | .found e => (some e, [sel])
    | .timedOut =>
      let r := findElementTrace doc rest
      (r.1, sel :: r.2)

/-- `ClipScutterWebAutomation.find_element_with_multiple_selectors`. -/
def find_element_with_multiple_selectors (doc : List Char → List Element)
    (selectors : List (List Char)) : Option Element :=
  (findElementTrace doc selectors).1

/-- Outcome of the native `element.click()` call. -/
inductive NativeClick where
  | success
  | intercepted
  | error
deriving DecidableEq, Repr

/-- Environment of one iteration of the retry loop of
`ClipScutterWebAutomation.safe_click`: whether the pre-steps (scroll into
view, clickability wait) run without raising, what the native click does,
and whether each scripted fallback (`execute_script` click, focus-and-click,
synthetic `MouseEvent` dispatch) succeeds. -/
structure ClickAttempt where
  preOk : Bool
  native : NativeClick
  jsClickOk : Bool
  focusClickOk : Bool
  dispatchOk : Bool
deriving DecidableEq, Repr

/-- The generic `except Exception` handler body of `safe_click`: try
focus-and-click, then the synthetic `MouseEvent` dispatch; report whether
either succeeded. -/
def genericHandlerOk (a : ClickAttempt) : Bool :=
  a.focusClickOk || a.dispatchOk

/-- Instrumented retry loop of `ClipScutterWebAutomation.safe_click`:
`env i` describes attempt `i` (0-based); the fuel argument is the number of
remaining iterations of `for attempt in range(max_attempts)`.  Returns the
boolean result together with the number of attempts consumed.
Per attempt: if the pre-steps raise, the generic handler runs; otherwise the
native click either succeeds (return `True`), raises
`ElementClickInterceptedException` (fall back to the scripted click, whose
failure moves straight to the next attempt), or raises some other exception
(generic handler, then next attempt). -/
def safeClickTrace (env : Nat → ClickAttempt) : Nat → Nat → Bool × Nat
  | _, 0 => (false, 0)
  | i, rem + 1 =>
    let a := env i
    let next : Bool × Nat := safeClickTrace env (i + 1) rem
    let failThrough : Bool × Nat := if next.1 then (true, next.2 + 1) else (false, next.2 + 1)
    if a.preOk then
      match a.native with
      | .success => (true, 1)
      | .intercepted => if a.jsClickOk then (true, 1) else failThrough
      | .error => if genericHandlerOk a then (true, 1) else failThrough
    else
      if genericHandlerOk a then (true, 1) else failThrough

/-- `ClipScutterWebAutomation.safe_click`. -/
def safe_click (env : Nat → ClickAttempt) (max_attempts : Nat) : Bool :=
  (safeClickTrace env 0 max_attempts).1

/-- Number of retry-loop iterations `safe_click` consumes. -/
def safe_click_attempts (env : Nat → ClickAttempt) (max_attempts : Nat) : Nat :=
  (safeClickTrace env 0 max_attempts).2

/-- Module-level `convert_time_to_seconds` of `web_automation.py`:
`parts = [int(x) for x in time_str.split(':')]` then
`parts[0]*3600 + parts[1]*60 + parts[2]`, with every exception (a
non-numeric field, or fewer than three fields) caught and turned into `0`. -/
def convert_time_to_seconds (s : List Char) : Nat :=
  if (splitOnColon s).all (fun f => (pythonInt f).isSome) then
    match (splitOnColon s).map (fun f => (pythonInt f).getD 0) with
    | a :: b :: c :: _ => a * 3600 + b * 60 + c
    | _ => 0
  else 0

/-- Module-level `format_seconds_to_time` of `web_automation.py`:
`f"{seconds//3600:02d}:{(seconds%3600)//60:02d}:{seconds%60:02d}"`. -/
def format_seconds_to_time (seconds : Nat) : List Char :=
  pad2 (seconds / 3600) ++ ':' :: (pad2 (seconds % 3600 / 60) ++ ':' :: pad2 (seconds % 60))

/-! ## `run_automation.py`: `ClipScutterRunner.process_all_clips` -/

/-- Environment for one run of `process_all_clips`: whether
`input_youtube_url` succeeds for a given URL, and whether `create_clip`
succeeds for a given clip. -/
structure RunEnv where
  inputOk : List Char → Bool
  createOk : ClipData → Bool

/-- Inner clip loop of `process_all_clips`: each clip either increments
`stats['clips_created']` or `stats['failed_clips']`. -/
def processClips (env : RunEnv) (clips : List ClipData) (st : Nat × Nat) : Nat × Nat :=
  clips.foldl (fun s c => if env.createOk c then (s.1 + 1, s.2) else (s.1, s.2 + 1)) st

/-- State threaded through the URL loop: `web_automation.current_url`
paired with (`clips_created`, `failed_clips`). -/
abbrev RunState := Option (List Char) × Nat × Nat

/-- One iteration of the URL loop of `process_all_clips`.  State:
(`web_automation.current_url`, `clips_created`, `failed_clips`).
If `check_if_same_video_loaded` (i.e. `current_url == youtube_url`) fails,
the runner resets (`current_url = None` via `reset_for_new_video`, when a
URL was loaded) and calls `input_youtube_url`; if that returns `False` the
loop `continue`s — the group's clips are skipped and neither counter is
touched. -/
def processGroup (env : RunEnv) (st : RunState) (g : List Char × List ClipData) :
    RunState :=
  if st.1 = some g.1 then
    (st.1, processClips env g.2 st.2)
  else if env.inputOk g.1 then
    (some g.1, processClips env g.2 st.2)
  else
    (none, st.2)

/-- `ClipScutterRunner.process_all_clips` over grouped clips, starting from
a fresh session (`current_url = None`) and zeroed counters; returns the
final (`clips_created`, `failed_clips`) pair. -/
def process_all_clips (env : RunEnv) (groups : List (List Char × List ClipData)) :
    Nat × Nat :=
  (groups.foldl (processGroup env) (none, 0, 0)).2

/-- Total number of descriptors across all groups. -/
def totalClips (groups : List (List Char × List ClipData)) : Nat :=
  (groups.map (fun g => g.2.length)).sum

/-! ## Spec-side definitions -/

/-- Follows the spec's words: the host component of a URL — the characters
after the first `"://"` up to the first `'/'`, `'?'`, `'#'` or `':'`.  Used
only to state what a "non-matching URL host" is; the source never extracts
a host. -/
def specUrlHost (url : List Char) : List Char :=
  (afterScheme url).takeWhile (fun c => !(c = '/' || c = '?' || c = '#' || c = ':'))
where
  /-- Drop everything up to and including the first occurrence of `"://"`. -/
  afterScheme : List Char → List Char
    | [] => []
    | c :: cs =>
      if "://".toList.isPrefixOf (c :: cs) then (c :: cs).drop 3
      else afterScheme cs

/-! ## Lemmas about the string and digit primitives -/

theorem digit_ne_colon {c : Char} (h : c.isDigit = true) : c ≠ ':' := by
  intro hc
  subst hc
  exact absurd h (by decide)

theorem colon_not_mem_of_all_digit {l : List Char} (h : l.all Char.isDigit = true) :
    ':' ∉ l := by
  intro hc
  exact digit_ne_colon (List.all_eq_true.mp h _ hc) rfl

theorem splitOnColon_no_colon {l : List Char} (h : ':' ∉ l) : splitOnColon l = [l] := by
  induction l with
  | nil => rfl
  | cons c cs ih =>
    have hc : ¬ c = ':' := fun hcc => h (hcc ▸ List.mem_cons_self c cs)
    have hcs : ':' ∉ cs := fun hm => h (List.mem_cons_of_mem c hm)
    simp only [splitOnColon, if_neg hc, ih hcs]

theorem splitOnColon_append {h : List Char} (hh : ':' ∉ h) (rest : List Char) :
    splitOnColon (h ++ ':' :: rest) = h :: splitOnColon rest := by
  induction h with
  | nil => simp [splitOnColon]
  | cons c cs ih =>
    have hc : ¬ c = ':' := fun hcc => hh (hcc ▸ List.mem_cons_self c cs)
    have hcs : ':' ∉ cs := fun hm => hh (List.mem_cons_of_mem c hm)
    have ih' := ih hcs
    simp only [List.cons_append, splitOnColon, if_neg hc, List.append_eq]
    rw [ih']

theorem valDigits_append_singleton (l : List Char) (c : Char) :
    valDigits (l ++ [c]) = 10 * valDigits l + (c.toNat - 48) := by
  simp [valDigits, List.foldl_append]

theorem valDigits_cons_zero (l : List Char) : valDigits ('0' :: l) = valDigits l := rfl

theorem digitChar_isDigit {d : Nat} (hd : d < 10) : (digitChar d).isDigit = true := by
  interval_cases d <;> decide

theorem toNat_digitChar {d : Nat} (hd : d < 10) : (digitChar d).toNat = 48 + d := by
  interval_cases d <;> decide

theorem valDigits_map_digitChar (L : List Nat) (hL : ∀ d ∈ L, d < 10) :
    valDigits ((L.map digitChar).reverse) = Nat.ofDigits 10 L := by
  induction L with
  | nil => rfl
  | cons d L ih =>
    simp only [List.map_cons, List.reverse_cons]
    rw [valDigits_append_singleton, ih (fun x hx => hL x (List.mem_cons_of_mem d hx)),
      toNat_digitChar (hL d (List.mem_cons_self d L)), Nat.ofDigits_cons]
    omega

theorem valDigits_natDigits (n : Nat) : valDigits (natDigits n) = n := by
  unfold natDigits
  split
  · simp_all [valDigits]
  · rw [valDigits_map_digitChar _ (fun d hd => Nat.digits_lt_base (by norm_num) hd)]
    exact_mod_cast Nat.ofDigits_digits 10 n

theorem natDigits_all_digit (n : Nat) : (natDigits n).all Char.isDigit = true := by
  unfold natDigits
  split
  · decide
  · rw [List.all_eq_true]
    intro c hc
    rw [List.mem_reverse, List.mem_map] at hc
    obtain ⟨d, hd, rfl⟩ := hc
    exact digitChar_isDigit (Nat.digits_lt_base (by norm_num) hd)

theorem natDigits_ne_nil (n : Nat) : natDigits n ≠ [] := by
  unfold natDigits
  split
  · simp
  · simp_all [Nat.digits_ne_nil_iff_ne_zero]

theorem pad2_all_digit (n : Nat) : (pad2 n).all Char.isDigit = true := by
  unfold pad2
  split
  · simpa using natDigits_all_digit n
  · exact natDigits_all_digit n

theorem pad2_ne_nil (n : Nat) : pad2 n ≠ [] := by
  unfold pad2
  split
  · simp
  · exact natDigits_ne_nil n

theorem valDigits_pad2 (n : Nat) : valDigits (pad2 n) = n := by
  unfold pad2
  split
  · rw [valDigits_cons_zero, valDigits_natDigits]
  · exact valDigits_natDigits n

theorem pythonInt_of_digits {l : List Char} (h1 : l ≠ []) (h2 : l.all Char.isDigit = true) :
    pythonInt l = some (valDigits l) := by
  simp [pythonInt, h1, h2]

theorem convert_fields {h m s : List Char}
    (hh1 : h ≠ []) (hh2 : h.all Char.isDigit = true)
    (hm1 : m ≠ []) (hm2 : m.all Char.isDigit = true)
    (hs1 : s ≠ []) (hs2 : s.all Char.isDigit = true) :
    convert_time_to_seconds (h ++ ':' :: (m ++ ':' :: s)) =
      valDigits h * 3600 + valDigits m * 60 + valDigits s := by
  unfold convert_time_to_seconds
  rw [splitOnColon_append (colon_not_mem_of_all_digit hh2),
    splitOnColon_append (colon_not_mem_of_all_digit hm2),
    splitOnColon_no_colon (colon_not_mem_of_all_digit hs2)]
  simp [pythonInt_of_digits hh1 hh2, pythonInt_of_digits hm1 hm2, pythonInt_of_digits hs1 hs2]

/-! ## Claim theorems: C2 -/

/-- C2: for every time string of the form `HH:MM:SS` (three non-empty
decimal-digit fields separated by colons) whose minute and second fields
are below 60, converting to seconds, formatting back, and converting again
yields the same number of seconds as converting once:
`convert_time_to_seconds (format_seconds_to_time (convert_time_to_seconds s))
 = convert_time_to_seconds s`. -/
theorem C2_time_roundtrip (h m s : List Char)
    (hh1 : h ≠ []) (hh2 : h.all Char.isDigit = true)
    (hm1 : m ≠ []) (hm2 : m.all Char.isDigit = true)
    (hs1 : s ≠ []) (hs2 : s.all Char.isDigit = true)
    (_hm60 : valDigits m < 60) (_hs60 : valDigits s < 60) :
    convert_time_to_seconds (format_seconds_to_time
        (convert_time_to_seconds (h ++ ':' :: (m ++ ':' :: s)))) =
      convert_time_to_seconds (h ++ ':' :: (m ++ ':' :: s)) := by
  rw [convert_fields hh1 hh2 hm1 hm2 hs1 hs2]
  set n := valDigits h * 3600 + valDigits m * 60 + valDigits s with hn
  unfold format_seconds_to_time
  rw [convert_fields (pad2_ne_nil _) (pad2_all_digit _) (pad2_ne_nil _) (pad2_all_digit _)
    (pad2_ne_nil _) (pad2_all_digit _), valDigits_pad2, valDigits_pad2, valDigits_pad2]
  omega

/-- Witness for C2 at the concrete time string `"01:02:03"`. -/
theorem C2_time_roundtrip_witness :
    convert_time_to_seconds (format_seconds_to_time
        (convert_time_to_seconds ("01".toList ++ ':' :: ("02".toList ++ ':' :: "03".toList)))) =
      convert_time_to_seconds ("01".toList ++ ':' :: ("02".toList ++ ':' :: "03".toList)) :=
  C2_time_roundtrip "01".toList "02".toList "03".toList (by decide) (by decide) (by decide)
    (by decide) (by decide) (by decide) (by decide) (by decide)

/-! ## Claim theorems: C5, C6, C7 (locator and actuator) -/

/-- C5: for every list of candidate selectors and every document state in
which no candidate ever matches (every poll times out), the resilient
locator `find_element_with_multiple_selectors` returns `none`: the
`TimeoutException` of each poll is caught and the loop falls through to
`return None`, so no exception escapes for this condition. -/
theorem C5_locator_all_timeout (doc : List Char → List Element)
    (selectors : List (List Char)) (h : ∀ s ∈ selectors, doc s = []) :
    find_element_with_multiple_selectors doc selectors = none := by
  induction selectors with
  | nil => rfl
  | cons sel rest ih =>
    have h1 : doc sel = [] := h sel (List.mem_cons_self sel rest)
    have ih' := ih (fun s hs => h s (List.mem_cons_of_mem sel hs))
    simp only [find_element_with_multiple_selectors, findElementTrace, presencePoll, h1] at ih' ⊢
    exact ih'

/-- Witness for C5: two selectors on an empty document. -/
theorem C5_locator_all_timeout_witness :
    find_element_with_multiple_selectors (fun _ => []) ["a".toList, "b".toList] = none :=
  C5_locator_all_timeout (fun _ => []) ["a".toList, "b".toList] (by decide)

/-- C6 counterexample: the claim states the locator returns the first
matching, currently-displayed element.  On a document whose only match for
the sole candidate selector is an element that is not displayed,
`find_element_with_multiple_selectors` nevertheless returns that element
(the underlying wait condition checks presence, not visibility), so the
returned element is not a displayed one. -/
theorem C6_locator_cex :
    find_element_with_multiple_selectors
        (fun s => if s = "x".toList then [⟨0, false⟩] else []) ["x".toList] =
      some ⟨0, false⟩ ∧ (Element.mk 0 false).displayed = false := by
  exact ⟨by decide, rfl⟩

/-- C6 (amended): the resilient locator tries candidates strictly in list
order, returns the first candidate's first *present* matching element —
displayed or not — and never polls a later candidate once an earlier
candidate has succeeded: the polled selectors are exactly the timed-out
prefix followed by the successful candidate. -/
theorem C6_locator_order (doc : List Char → List Element)
    (pre post : List (List Char)) (sel : List Char) (e : Element) (rest : List Element)
    (hpre : ∀ s ∈ pre, doc s = []) (hsel : doc sel = e :: rest) :
    find_element_with_multiple_selectors doc (pre ++ sel :: post) = some e ∧
      (findElementTrace doc (pre ++ sel :: post)).2 = pre ++ [sel] := by
  induction pre with
  | nil =>
    simp [find_element_with_multiple_selectors, findElementTrace, presencePoll, hsel]
  | cons p pre ih =>
    have h1 : doc p = [] := hpre p (List.mem_cons_self p pre)
    have ih' := ih (fun s hs => hpre s (List.mem_cons_of_mem p hs))
    simp only [List.cons_append, find_element_with_multiple_selectors, findElementTrace,
      presencePoll, h1, List.append_eq] at ih' ⊢
    exact ⟨ih'.1, by rw [ih'.2]⟩

/-- Witness for C6 (amended): one timed-out candidate, then a successful
one, then an unpolled one. -/
theorem C6_locator_order_witness :
    find_element_with_multiple_selectors
        (fun s => if s = "b".toList then [⟨1, true⟩] else [])
        ["a".toList, "b".toList, "c".toList] = some ⟨1, true⟩ ∧
      (findElementTrace (fun s => if s = "b".toList then [⟨1, true⟩] else [])
        ["a".toList, "b".toList, "c".toList]).2 = ["a".toList, "b".toList] :=
  C6_locator_order (fun s => if s = "b".toList then [⟨1, true⟩] else [])
    ["a".toList] ["c".toList] "b".toList ⟨1, true⟩ [] (by decide) (by decide)

/-- C7: when the native click of attempt 1 raises
`ElementClickInterceptedException` and the scripted fallback click on the
same attempt succeeds, `safe_click` returns `True` having consumed exactly
one attempt — not a retry-exhausted failure. -/
theorem C7_safe_click_intercepted (env : Nat → ClickAttempt) (max_attempts : Nat)
    (hmax : 1 ≤ max_attempts) (hpre : (env 0).preOk = true)
    (hnat : (env 0).native = NativeClick.intercepted) (hjs : (env 0).jsClickOk = true) :
    safe_click env max_attempts = true ∧ safe_click_attempts env max_attempts = 1 := by
  obtain ⟨rem, rfl⟩ : ∃ r, max_attempts = r + 1 := ⟨max_attempts - 1, by omega⟩
  simp [safe_click, safe_click_attempts, safeClickTrace, hpre, hnat, hjs]

/-- Witness for C7: an environment that intercepts the native click and
succeeds on the scripted fallback, with a budget of 3 attempts. -/
theorem C7_safe_click_intercepted_witness :
    safe_click (fun _ => ⟨true, NativeClick.intercepted, true, false, false⟩) 3 = true ∧
      safe_click_attempts (fun _ => ⟨true, NativeClick.intercepted, true, false, false⟩) 3 = 1 :=
  C7_safe_click_intercepted (fun _ => ⟨true, NativeClick.intercepted, true, false, false⟩) 3
    (by decide) rfl rfl rfl

/-! ## Lemmas about the batch orchestrator, and claim C1 -/

theorem processClips_sum (env : RunEnv) (clips : List ClipData) :
    ∀ st : Nat × Nat,
      (processClips env clips st).1 + (processClips env clips st).2 =
        st.1 + st.2 + clips.length := by
  induction clips with
  | nil => intro st; simp [processClips]
  | cons c cs ih =>
    intro st
    show (processClips env cs _).1 + (processClips env cs _).2 = _
    rw [ih]
    by_cases h : env.createOk c <;> simp [h] <;> omega

theorem processGroup_sum (env : RunEnv) (st : RunState) (g : List Char × List ClipData)
    (h : env.inputOk g.1 = true) :
    (processGroup env st g).2.1 + (processGroup env st g).2.2 =
      st.2.1 + st.2.2 + g.2.length := by
  unfold processGroup
  rw [h]
  split
  · exact processClips_sum env g.2 st.2
  · exact processClips_sum env g.2 st.2

theorem foldl_processGroup_sum (env : RunEnv) (groups : List (List Char × List ClipData))
    (h : ∀ g ∈ groups, env.inputOk g.1 = true) :
    ∀ st : RunState,
      (groups.foldl (processGroup env) st).2.1 + (groups.foldl (processGroup env) st).2.2 =
        st.2.1 + st.2.2 + totalClips groups := by
  induction groups with
  | nil => intro st; simp [totalClips]
  | cons g gs ih =>
    intro st
    rw [List.foldl_cons, ih (fun x hx => h x (List.mem_cons_of_mem g hx)),
      processGroup_sum env st g (h g (List.mem_cons_self g gs))]
    simp [totalClips]
    omega

/-- C1 counterexample: on a single group of one descriptor whose URL fails
to load (`input_youtube_url` returns `False`), `process_all_clips` skips
the whole group with a `continue`: neither `clips_created` nor
`failed_clips` is incremented, so attempted = 0 ≠ 1 = total descriptor
count. -/
theorem C1_attempted_cex :
    process_all_clips ⟨fun _ => false, fun _ => true⟩
        [("u".toList, [⟨"s".toList, "e".toList, "u".toList, 1⟩])] = (0, 0) ∧
      totalClips [("u".toList, [⟨"s".toList, "e".toList, "u".toList, 1⟩])] = 1 := by
  exact ⟨rfl, rfl⟩

/-- C1 (amended): whenever every group's URL load succeeds, the report's
attempted count (`clips_created + failed_clips`) equals the total number of
descriptors across all groups.  When a group's URL load fails, that group's
descriptors are skipped and counted neither as created nor as failed. -/
theorem C1_attempted_counts (env : RunEnv) (groups : List (List Char × List ClipData))
    (h : ∀ g ∈ groups, env.inputOk g.1 = true) :
    (process_all_clips env groups).1 + (process_all_clips env groups).2 =
      totalClips groups := by
  unfold process_all_clips
  rw [foldl_processGroup_sum env groups h]
  simp

/-- Witness for C1 (amended): two groups, three descriptors, one failing
creation; attempted = 3. -/
theorem C1_attempted_counts_witness :
    (process_all_clips ⟨fun _ => true, fun c => c.row_number = 1⟩
        [("u".toList, [⟨"s".toList, "e".toList, "u".toList, 1⟩,
                       ⟨"s".toList, "e".toList, "u".toList, 2⟩]),
         ("v".toList, [⟨"s".toList, "e".toList, "v".toList, 3⟩])]).1 +
      (process_all_clips ⟨fun _ => true, fun c => c.row_number = 1⟩
        [("u".toList, [⟨"s".toList, "e".toList, "u".toList, 1⟩,
                       ⟨"s".toList, "e".toList, "u".toList, 2⟩]),
         ("v".toList, [⟨"s".toList, "e".toList, "v".toList, 3⟩])]).2 =
      totalClips
        [("u".toList, [⟨"s".toList, "e".toList, "u".toList, 1⟩,
                       ⟨"s".toList, "e".toList, "u".toList, 2⟩]),
         ("v".toList, [⟨"s".toList, "e".toList, "v".toList, 3⟩])] :=
  C1_attempted_counts ⟨fun _ => true, fun c => c.row_number = 1⟩
    [("u".toList, [⟨"s".toList, "e".toList, "u".toList, 1⟩,
                   ⟨"s".toList, "e".toList, "u".toList, 2⟩]),
     ("v".toList, [⟨"s".toList, "e".toList, "v".toList, 3⟩])]
    (by decide)

/-! ## Lemmas about the CSV loader, and claims C8, C9, C10 -/

theorem parseRow_row_number {n : Nat} {row : List (List Char)} {c : ClipData}
    (h : parseRow n row = some c) : c.row_number = n := by
  unfold parseRow at h
  split at h
  · split_ifs at h
    injection h with h
    subst h
    rfl
  · exact absurd h (by simp)

theorem parseRow_valid {n : Nat} {row : List (List Char)} {c : ClipData}
    (h : parseRow n row = some c) :
    validate_time_format c.start_time = true ∧
      validate_time_format c.end_time = true ∧
      validate_youtube_url c.youtube_url = true := by
  unfold parseRow at h
  split at h
  · split_ifs at h with h1 h2 h3
    injection h with h
    subst h
    exact ⟨h1, h2, h3⟩
  · exact absurd h (by simp)

theorem parseRow_short {n : Nat} {row : List (List Char)} (h : row.length < 3) :
    parseRow n row = none := by
  match row with
  | [] => rfl
  | [_] => rfl
  | [_, _] => rfl
  | _ :: _ :: _ :: _ => simp at h; omega

theorem parseRow_bad_start {n : Nat} {r0 r1 r2 : List Char} {rest : List (List Char)}
    (h : validate_time_format (pythonStrip r0) = false) :
    parseRow n (r0 :: r1 :: r2 :: rest) = none := by
  simp [parseRow, h]

theorem mem_read_csv_aux (rows : List (List (List Char))) :
    ∀ (k : Nat) (c : ClipData),
      c ∈ (rows.enumFrom k).filterMap (fun p => parseRow p.1 p.2) ↔
        ∃ i, ∃ h : i < rows.length, parseRow (k + i) (rows.get ⟨i, h⟩) = some c := by
  induction rows with
  | nil => simp [List.enumFrom]
  | cons r rs ih =>
    intro k c
    rw [List.enumFrom, List.filterMap_cons]
    constructor
    · intro hmem
      cases hp : parseRow k r with
      | some c' =>
        rw [hp] at hmem
        rcases List.mem_cons.mp hmem with h | h
        · refine ⟨0, by simp, ?_⟩
          show parseRow (k + 0) r = some c
          rw [Nat.add_zero, hp, h]
        · obtain ⟨i, hi, hip⟩ := (ih (k + 1) c).mp h
          refine ⟨i + 1, by simpa using Nat.succ_lt_succ hi, ?_⟩
          show parseRow (k + (i + 1)) (rs.get ⟨i, hi⟩) = some c
          have harith : k + (i + 1) = k + 1 + i := by omega
          rw [harith]
          exact hip
      | none =>
        rw [hp] at hmem
        obtain ⟨i, hi, hip⟩ := (ih (k + 1) c).mp hmem
        refine ⟨i + 1, by simpa using Nat.succ_lt_succ hi, ?_⟩
        show parseRow (k + (i + 1)) (rs.get ⟨i, hi⟩) = some c
        have harith : k + (i + 1) = k + 1 + i := by omega
        rw [harith]
        exact hip
    · rintro ⟨i, hi, hip⟩
      match i with
      | 0 =>
        have hip' : parseRow k r = some c := by
          rw [← Nat.add_zero k]
          exact hip
        rw [hip']
        exact List.mem_cons_self c _
      | i + 1 =>
        have hi' : i < rs.length := by simpa using Nat.lt_of_succ_lt_succ hi
        have hip' : parseRow (k + 1 + i) (rs.get ⟨i, hi'⟩) = some c := by
          have harith : k + 1 + i = k + (i + 1) := by omega
          rw [harith]
          exact hip
        have hmem := (ih (k + 1) c).mpr ⟨i, hi', hip'⟩
        cases hp : parseRow k r with
        | some c' => exact List.mem_cons_of_mem c' hmem
        | none => exact hmem

theorem mem_read_csv_rows {rows : List (List (List Char))} {c : ClipData} :
    c ∈ read_csv_rows rows ↔
      ∃ i, ∃ h : i < rows.length, parseRow (1 + i) (rows.get ⟨i, h⟩) = some c :=
  mem_read_csv_aux rows 1 c

/-- C8 counterexample: the claim says rows with wrong column count are
rejected, but a four-column row (column count 4 ≠ 3) whose first three
fields are valid is accepted: `read_csv` only rejects rows with fewer than
three columns (`len(row) < 3`) and ignores extra columns. -/
theorem C8_loader_cex :
    (read_csv_rows [["00:00:01".toList, "00:00:02".toList,
        "https://www.youtube.com/watch?v=x".toList, "extra".toList]]).length = 1 ∧
      ([["00:00:01".toList, "00:00:02".toList,
        "https://www.youtube.com/watch?v=x".toList, "extra".toList]].get ⟨0, by decide⟩).length ≠ 3 := by
  exact ⟨rfl, by decide⟩

/-- C8 (amended): the CSV loader rejects rows with fewer than three columns
or malformed time individually without raising (rows with extra columns
beyond the third are accepted, the extra fields ignored), and every valid
row positioned before or after a bad row is still included in the returned
clip list. -/
theorem C8_loader_tolerance (rows : List (List (List Char))) (i : Nat)
    (h : i < rows.length) :
    (∀ c : ClipData, parseRow (1 + i) (rows.get ⟨i, h⟩) = some c →
        c ∈ read_csv_rows rows) ∧
      (parseRow (1 + i) (rows.get ⟨i, h⟩) = none →
        ∀ c ∈ read_csv_rows rows, c.row_number ≠ 1 + i) ∧
      ((rows.get ⟨i, h⟩).length < 3 → parseRow (1 + i) (rows.get ⟨i, h⟩) = none) ∧
      (∀ (r0 r1 r2 : List Char) (rest : List (List Char)),
        rows.get ⟨i, h⟩ = r0 :: r1 :: r2 :: rest →
        validate_time_format (pythonStrip r0) = false →
        parseRow (1 + i) (rows.get ⟨i, h⟩) = none) := by
  refine ⟨?_, ?_, ?_, ?_⟩
  · intro c hc
    exact mem_read_csv_rows.mpr ⟨i, h, hc⟩
  · intro hnone c hc hrow
    obtain ⟨j, hj, hjp⟩ := mem_read_csv_rows.mp hc
    have : 1 + j = 1 + i := (parseRow_row_number hjp) ▸ hrow
    have hij : j = i := by omega
    subst hij
    rw [hjp] at hnone
    exact Option.noConfusion hnone
  · exact parseRow_short
  · intro r0 r1 r2 rest hrow hbad
    rw [hrow]
    exact parseRow_bad_start hbad

/-- Witness for C8 (amended): a valid row after a malformed-time row is
still loaded; the bad row yields no clip. -/
theorem C8_loader_tolerance_witness :
    (∀ c : ClipData, parseRow (1 + 1)
        ([["bad".toList, "00:00:02".toList, "https://www.youtube.com/watch?v=x".toList],
          ["00:00:01".toList, "00:00:02".toList,
            "https://www.youtube.com/watch?v=x".toList]].get ⟨1, by decide⟩) = some c →
        c ∈ read_csv_rows
          [["bad".toList, "00:00:02".toList, "https://www.youtube.com/watch?v=x".toList],
           ["00:00:01".toList, "00:00:02".toList,
             "https://www.youtube.com/watch?v=x".toList]]) ∧
      (parseRow (1 + 1)
        ([["bad".toList, "00:00:02".toList, "https://www.youtube.com/watch?v=x".toList],
          ["00:00:01".toList, "00:00:02".toList,
            "https://www.youtube.com/watch?v=x".toList]].get ⟨1, by decide⟩) = none →
        ∀ c ∈ read_csv_rows
          [["bad".toList, "00:00:02".toList, "https://www.youtube.com/watch?v=x".toList],
           ["00:00:01".toList, "00:00:02".toList,
             "https://www.youtube.com/watch?v=x".toList]], c.row_number ≠ 1 + 1) ∧
      (([["bad".toList, "00:00:02".toList, "https://www.youtube.com/watch?v=x".toList],
          ["00:00:01".toList, "00:00:02".toList,
            "https://www.youtube.com/watch?v=x".toList]].get ⟨1, by decide⟩).length < 3 →
        parseRow (1 + 1)
          ([["bad".toList, "00:00:02".toList, "https://www.youtube.com/watch?v=x".toList],
            ["00:00:01".toList, "00:00:02".toList,
              "https://www.youtube.com/watch?v=x".toList]].get ⟨1, by decide⟩) = none) ∧
      (∀ (r0 r1 r2 : List Char) (rest : List (List Char)),
        [["bad".toList, "00:00:02".toList, "https://www.youtube.com/watch?v=x".toList],
         ["00:00:01".toList, "00:00:02".toList,
           "https://www.youtube.com/watch?v=x".toList]].get ⟨1, by decide⟩
          = r0 :: r1 :: r2 :: rest →
        validate_time_format (pythonStrip r0) = false →
        parseRow (1 + 1)
          ([["bad".toList, "00:00:02".toList, "https://www.youtube.com/watch?v=x".toList],
            ["00:00:01".toList, "00:00:02".toList,
              "https://www.youtube.com/watch?v=x".toList]].get ⟨1, by decide⟩) = none) :=
  C8_loader_tolerance
    [["bad".toList, "00:00:02".toList, "https://www.youtube.com/watch?v=x".toList],
     ["00:00:01".toList, "00:00:02".toList, "https://www.youtube.com/watch?v=x".toList]]
    1 (by decide)

/-- C9 counterexample: a row whose URL's host is `evil.com` — not a YouTube
host — but whose query string contains the text `youtube.com` passes
`validate_youtube_url` (a substring test) and its clip appears in the
returned list, contradicting the claim that no non-matching-host URL is
loaded. -/
theorem C9_host_cex :
    (read_csv_rows [["00:00:01".toList, "00:00:02".toList,
        "http://evil.com/?q=youtube.com".toList]]).map ClipData.youtube_url =
      ["http://evil.com/?q=youtube.com".toList] ∧
      specUrlHost "http://evil.com/?q=youtube.com".toList = "evil.com".toList ∧
      specUrlHost "http://evil.com/?q=youtube.com".toList ∉ youtubeDomains := by
  exact ⟨rfl, by decide, by decide⟩

/-- C9 (amended): URL validation is a substring test, not a host test:
every clip in the returned list has a URL that starts with `"http"` and
contains one of `"youtube.com"`, `"youtu.be"`, `"www.youtube.com"` as a
substring anywhere; rows failing that test are rejected, but a URL whose
host is not YouTube is accepted whenever such a substring occurs anywhere
in the URL. -/
theorem C9_url_validation (rows : List (List (List Char))) (c : ClipData)
    (hc : c ∈ read_csv_rows rows) :
    "http".toList.isPrefixOf c.youtube_url = true ∧
      youtubeDomains.any (fun d => containsSub d c.youtube_url) = true := by
  obtain ⟨i, hi, hip⟩ := mem_read_csv_rows.mp hc
  have hv := (parseRow_valid hip).2.2
  unfold validate_youtube_url at hv
  exact ⟨(Bool.and_eq_true _ _ |>.mp hv).2, (Bool.and_eq_true _ _ |>.mp hv).1⟩

/-- Witness for C9 (amended) at a concrete loaded clip. -/
theorem C9_url_validation_witness :
    "http".toList.isPrefixOf
        (ClipData.mk "00:00:01".toList "00:00:02".toList
          "https://www.youtube.com/watch?v=x".toList 1).youtube_url = true ∧
      youtubeDomains.any (fun d => containsSub d
        (ClipData.mk "00:00:01".toList "00:00:02".toList
          "https://www.youtube.com/watch?v=x".toList 1).youtube_url) = true :=
  C9_url_validation
    [["00:00:01".toList, "00:00:02".toList, "https://www.youtube.com/watch?v=x".toList]]
    (ClipData.mk "00:00:01".toList "00:00:02".toList
      "https://www.youtube.com/watch?v=x".toList 1)
    (by decide)

/-- C10 counterexample: `read_csv` never compares the two times, so a row
whose end time (10 s) precedes its start time (20 s) is loaded, and the
resulting clip violates `endTime > startTime`. -/
theorem C10_order_cex :
    read_csv_rows [["00:00:20".toList, "00:00:10".toList,
        "https://www.youtube.com/watch?v=x".toList]] =
      [ClipData.mk "00:00:20".toList "00:00:10".toList
        "https://www.youtube.com/watch?v=x".toList 1] ∧
      convert_time_to_seconds "00:00:10".toList <
        convert_time_to_seconds "00:00:20".toList := by
  exact ⟨rfl, by decide⟩

/-- C10 (amended): every clip returned by the CSV loader has both its start
and its end time in valid `HH:MM:SS` format (digit fields, minutes and
seconds below 60); the loader does not enforce `endTime > startTime`. -/
theorem C10_time_validity (rows : List (List (List Char))) (c : ClipData)
    (hc : c ∈ read_csv_rows rows) :
    validate_time_format c.start_time = true ∧
      validate_time_format c.end_time = true := by
  obtain ⟨i, hi, hip⟩ := mem_read_csv_rows.mp hc
  exact ⟨(parseRow_valid hip).1, (parseRow_valid hip).2.1⟩

/-- Witness for C10 (amended) at a concrete loaded clip. -/
theorem C10_time_validity_witness :
    validate_time_format
        (ClipData.mk "00:00:01".toList "00:00:02".toList
          "https://www.youtube.com/watch?v=x".toList 1).start_time = true ∧
      validate_time_format
        (ClipData.mk "00:00:01".toList "00:00:02".toList
          "https://www.youtube.com/watch?v=x".toList 1).end_time = true :=
  C10_time_validity
    [["00:00:01".toList, "00:00:02".toList, "https://www.youtube.com/watch?v=x".toList]]
    (ClipData.mk "00:00:01".toList "00:00:02".toList
      "https://www.youtube.com/watch?v=x".toList 1)
    (by decide)

/-! ## Lemmas about grouping (for claims C3 and C4) -/

theorem insertClip_not_mem {m : List (List Char × List ClipData)} {c : ClipData}
    (h : c.youtube_url ∉ m.map Prod.fst) :
    insertClip m c = m ++ [(c.youtube_url, [c])] := by
  induction m with
  | nil => rfl
  | cons p rest ih =>
    obtain ⟨u, l⟩ := p
    have hu : ¬ u = c.youtube_url := by
      intro hu
      exact h (by simp [hu])
    have hrest : c.youtube_url ∉ rest.map Prod.fst := fun hm => h (by simp [hm])
    simp [insertClip, hu, ih hrest]

theorem map_update_of_not_mem {m : List (List Char × List ClipData)} {x : List Char}
    {f : List ClipData → List ClipData} (h : x ∉ m.map Prod.fst) :
    m.map (fun p => if p.1 = x then (p.1, f p.2) else p) = m := by
  induction m with
  | nil => rfl
  | cons p rest ih =>
    have hp : ¬ p.1 = x := by
      intro hp
      exact h (by simp [hp])
    have hrest : x ∉ rest.map Prod.fst := fun hm => h (by simp [hm])
    simp [hp, ih hrest]

theorem insertClip_mem {m : List (List Char × List ClipData)} {c : ClipData}
    (hnd : (m.map Prod.fst).Nodup) (h : c.youtube_url ∈ m.map Prod.fst) :
    insertClip m c =
      m.map (fun p => if p.1 = c.youtube_url then (p.1, p.2 ++ [c]) else p) := by
  induction m with
  | nil => simp at h
  | cons p rest ih =>
    obtain ⟨u, l⟩ := p
    rw [List.map_cons] at hnd h
    have hnd1 : u ∉ rest.map Prod.fst := (List.nodup_cons.mp hnd).1
    have hnd2 : (rest.map Prod.fst).Nodup := (List.nodup_cons.mp hnd).2
    by_cases hu : u = c.youtube_url
    · have hrest : c.youtube_url ∉ rest.map Prod.fst := hu ▸ hnd1
      simp only [insertClip, hu, if_pos rfl, List.map_cons, ite_true]
      exact congrArg _ (map_update_of_not_mem (f := fun l => l ++ [c]) hrest).symm
    · have h' : c.youtube_url ∈ rest.map Prod.fst := by
        rcases List.mem_cons.mp h with h0 | h0
        · exact absurd h0.symm hu
        · exact h0
      simp [insertClip, hu, ih hnd2 h']

theorem map_fst_map_update (m : List (List Char × List ClipData)) (c : ClipData) :
    (m.map (fun p => if p.1 = c.youtube_url then (p.1, p.2 ++ [c]) else p)).map Prod.fst =
      m.map Prod.fst := by
  induction m with
  | nil => rfl
  | cons p rest ih =>
    by_cases hp : p.1 = c.youtube_url <;> simp [hp, ih]

theorem newKeys_congr {ks ks' : List (List Char)} (h : ∀ x, x ∈ ks ↔ x ∈ ks') :
    ∀ cs : List ClipData, newKeys ks cs = newKeys ks' cs := by
  intro cs
  induction cs generalizing ks ks' with
  | nil => rfl
  | cons c cs ih =>
    by_cases hc : c.youtube_url ∈ ks
    · rw [newKeys, newKeys, if_pos hc, if_pos ((h _).mp hc)]
      exact ih h
    · rw [newKeys, newKeys, if_neg hc, if_neg (fun hm => hc ((h _).mpr hm))]
      refine congrArg _ (ih ?_)
      intro x
      simp only [List.mem_cons]
      exact ⟨fun hx => hx.imp id (h x).mp, fun hx => hx.imp id (h x).mpr⟩

theorem not_mem_of_mem_newKeys {ks : List (List Char)} {cs : List ClipData}
    {u : List Char} (h : u ∈ newKeys ks cs) : u ∉ ks := by
  induction cs generalizing ks with
  | nil => simp [newKeys] at h
  | cons c cs ih =>
    rw [newKeys] at h
    split at h
    · exact ih h
    · rcases List.mem_cons.mp h with h0 | h0
      · subst h0; assumption
      · intro hu
        exact ih h0 (List.mem_cons_of_mem _ hu)

theorem newKeys_nodup (cs : List ClipData) : ∀ ks, (newKeys ks cs).Nodup := by
  induction cs with
  | nil => intro ks; simp [newKeys]
  | cons c cs ih =>
    intro ks
    rw [newKeys]
    split
    · exact ih ks
    · refine List.nodup_cons.mpr ⟨?_, ih _⟩
      intro hmem
      exact not_mem_of_mem_newKeys hmem (List.mem_cons_self _ _)

theorem exists_of_mem_newKeys {ks : List (List Char)} {cs : List ClipData}
    {u : List Char} (h : u ∈ newKeys ks cs) : ∃ c ∈ cs, c.youtube_url = u := by
  induction cs generalizing ks with
  | nil => simp [newKeys] at h
  | cons c cs ih =>
    rw [newKeys] at h
    split at h
    · obtain ⟨c', hc', hu⟩ := ih h
      exact ⟨c', List.mem_cons_of_mem _ hc', hu⟩
    · rcases List.mem_cons.mp h with h0 | h0
      · exact ⟨c, List.mem_cons_self _ _, h0.symm⟩
      · obtain ⟨c', hc', hu⟩ := ih h0
        exact ⟨c', List.mem_cons_of_mem _ hc', hu⟩

theorem foldl_insertClip_eq (cs : List ClipData) :
    ∀ m : List (List Char × List ClipData), (m.map Prod.fst).Nodup →
      List.foldl insertClip m cs =
        m.map (fun p => (p.1, p.2 ++ cs.filter (fun c => c.youtube_url = p.1))) ++
          (newKeys (m.map Prod.fst) cs).map
            (fun u => (u, cs.filter (fun c => c.youtube_url = u))) := by
  induction cs with
  | nil =>
    intro m hnd
    simp [newKeys]
  | cons c cs ih =>
    intro m hnd
    rw [List.foldl_cons]
    by_cases hmem : c.youtube_url ∈ m.map Prod.fst
    · rw [insertClip_mem hnd hmem,
        ih _ (by rw [map_fst_map_update m c]; exact hnd), map_fst_map_update m c]
      have hkeys : newKeys (m.map Prod.fst) (c :: cs) = newKeys (m.map Prod.fst) cs := by
        rw [newKeys, if_pos hmem]
      rw [hkeys]
      congr 1
      · rw [List.map_map]
        refine List.map_congr_left ?_
        intro p _
        by_cases hpc : p.1 = c.youtube_url
        · simp only [Function.comp_apply, if_pos hpc]
          rw [List.filter_cons, if_pos (by simp [hpc])]
          simp [List.append_assoc]
        · simp only [Function.comp_apply, if_neg hpc]
          rw [List.filter_cons, if_neg (by simp; intro h; exact hpc h.symm)]
      · refine List.map_congr_left ?_
        intro u hu
        have hune : u ≠ c.youtube_url := fun h => (not_mem_of_mem_newKeys hu) (h ▸ hmem)
        rw [List.filter_cons, if_neg (by simp; intro h; exact hune h.symm)]
    · rw [insertClip_not_mem hmem, ih _ ?hnd']
      case hnd' =>
        rw [List.map_append]
        simp only [List.map_cons, List.map_nil]
        rw [List.nodup_append]
        refine ⟨hnd, List.nodup_singleton _, ?_⟩
        intro x hx
        simp only [List.mem_singleton]
        intro hxc
        exact hmem (hxc ▸ hx)
      have hkeys1 : (m ++ [(c.youtube_url, [c])]).map Prod.fst =
          m.map Prod.fst ++ [c.youtube_url] := by
        simp
      have hkeys2 : newKeys (m.map Prod.fst ++ [c.youtube_url]) cs =
          newKeys (c.youtube_url :: m.map Prod.fst) cs := by
        refine newKeys_congr ?_ cs
        intro x
        simp [or_comm]
      have hkeys3 : newKeys (m.map Prod.fst) (c :: cs) =
          c.youtube_url :: newKeys (c.youtube_url :: m.map Prod.fst) cs := by
        rw [newKeys, if_neg hmem]
      rw [hkeys1, hkeys2, hkeys3]
      simp only [List.map_append, List.map_cons, List.map_nil]
      have hm : m.map (fun p => (p.1, p.2 ++ cs.filter (fun c' => c'.youtube_url = p.1))) =
          m.map (fun p => (p.1, p.2 ++ (c :: cs).filter (fun c' => c'.youtube_url = p.1))) := by
        refine List.map_congr_left ?_
        intro p hp
        have hpc : ¬ c.youtube_url = p.1 := by
          intro h
          exact hmem (h ▸ List.mem_map_of_mem Prod.fst hp)
        rw [List.filter_cons, if_neg (by simpa using hpc)]
      have hhead : ((c.youtube_url, [c] ++
            cs.filter (fun c' => c'.youtube_url = c.youtube_url)) :
            List Char × List ClipData) =
          (c.youtube_url, (c :: cs).filter (fun c' => c'.youtube_url = c.youtube_url)) := by
        rw [List.filter_cons, if_pos (by simp)]
        rfl
      have htail : (newKeys (c.youtube_url :: m.map Prod.fst) cs).map
            (fun u => (u, cs.filter (fun c' => c'.youtube_url = u))) =
          (newKeys (c.youtube_url :: m.map Prod.fst) cs).map
            (fun u => (u, (c :: cs).filter (fun c' => c'.youtube_url = u))) := by
        refine List.map_congr_left ?_
        intro u hu
        have hune : ¬ c.youtube_url = u := by
          intro h
          exact (not_mem_of_mem_newKeys hu) (h ▸ List.mem_cons_self _ _)
        rw [List.filter_cons, if_neg (by simpa using hune)]
      rw [hm, hhead, htail]
      simp [List.append_assoc]

theorem groupRaw_eq (cs : List ClipData) :
    groupRaw cs = (newKeys [] cs).map
      (fun u => (u, cs.filter (fun c => c.youtube_url = u))) := by
  unfold groupRaw
  rw [foldl_insertClip_eq cs [] (by simp)]
  simp

theorem group_clips_by_url_eq (cs : List ClipData) :
    group_clips_by_url cs = (newKeys [] cs).map
      (fun u => (u, sortRow (cs.filter (fun c => c.youtube_url = u)))) := by
  unfold group_clips_by_url
  rw [groupRaw_eq, List.map_map]
  rfl

theorem mem_group_iff {cs : List ClipData} {u : List Char} {l : List ClipData} :
    (u, l) ∈ group_clips_by_url cs ↔
      u ∈ newKeys [] cs ∧ l = sortRow (cs.filter (fun c => c.youtube_url = u)) := by
  rw [group_clips_by_url_eq]
  constructor
  · intro h
    obtain ⟨u', hu', heq⟩ := List.mem_map.mp h
    obtain ⟨h1, h2⟩ := Prod.mk.injEq .. |>.mp heq
    subst h1
    exact ⟨hu', h2.symm⟩
  · rintro ⟨h1, rfl⟩
    exact List.mem_map.mpr ⟨u, h1, rfl⟩

theorem joinGroups_cons (p : List Char × List ClipData)
    (g : List (List Char × List ClipData)) :
    joinGroups (p :: g) = p.2 ++ joinGroups g := rfl

theorem joinGroups_insertClip (m : List (List Char × List ClipData)) (c : ClipData) :
    (joinGroups (insertClip m c)).Perm (joinGroups m ++ [c]) := by
  induction m with
  | nil => simp [insertClip, joinGroups]
  | cons p rest ih =>
    obtain ⟨u, l⟩ := p
    by_cases hu : u = c.youtube_url
    · simp only [insertClip, if_pos hu]
      rw [joinGroups_cons, joinGroups_cons, List.append_assoc, List.append_assoc]
      exact List.Perm.append_left l List.perm_append_comm
    · simp only [insertClip, if_neg hu]
      rw [joinGroups_cons, joinGroups_cons, List.append_assoc]
      exact List.Perm.append_left l ih

theorem joinGroups_foldl (cs : List ClipData) :
    ∀ m, (joinGroups (List.foldl insertClip m cs)).Perm (joinGroups m ++ cs) := by
  induction cs with
  | nil => intro m; simp
  | cons c cs ih =>
    intro m
    rw [List.foldl_cons]
    refine (ih (insertClip m c)).trans ?_
    refine (List.Perm.append_right cs (joinGroups_insertClip m c)).trans ?_
    have heq : (joinGroups m ++ [c]) ++ cs = joinGroups m ++ (c :: cs) := by simp
    rw [heq]

theorem joinGroups_sort_perm (g : List (List Char × List ClipData)) :
    (joinGroups (g.map (fun p => (p.1, sortRow p.2)))).Perm (joinGroups g) := by
  induction g with
  | nil => exact List.Perm.refl _
  | cons p g ih =>
    rw [List.map_cons, joinGroups_cons, joinGroups_cons]
    exact List.Perm.append (List.perm_insertionSort rowLe p.2) ih

theorem joinGroups_group_perm (cs : List ClipData) :
    (joinGroups (group_clips_by_url cs)).Perm cs := by
  unfold group_clips_by_url
  refine (joinGroups_sort_perm (groupRaw cs)).trans ?_
  unfold groupRaw
  simpa using joinGroups_foldl cs []

theorem insertClip_append_last {m : List (List Char × List ClipData)}
    {u : List Char} {acc : List ClipData} {c : ClipData}
    (hm : u ∉ m.map Prod.fst) (hc : c.youtube_url = u) :
    insertClip (m ++ [(u, acc)]) c = m ++ [(u, acc ++ [c])] := by
  induction m with
  | nil => simp [insertClip, hc.symm]
  | cons p rest ih =>
    obtain ⟨v, l⟩ := p
    have hv : ¬ v = c.youtube_url := by
      rw [hc]
      intro h
      exact hm (by simp [h])
    have hrest : u ∉ rest.map Prod.fst := fun h => hm (by simp [h])
    simp only [List.cons_append, insertClip, if_neg hv, List.append_eq]
    rw [ih hrest]

theorem foldl_insertClip_last {u : List Char} (block : List ClipData)
    (hall : ∀ c ∈ block, c.youtube_url = u) :
    ∀ (m : List (List Char × List ClipData)) (acc : List ClipData),
      u ∉ m.map Prod.fst →
      List.foldl insertClip (m ++ [(u, acc)]) block = m ++ [(u, acc ++ block)] := by
  induction block with
  | nil => intro m acc _; simp
  | cons c block ih =>
    intro m acc hm
    rw [List.foldl_cons, insertClip_append_last hm (hall c (List.mem_cons_self c block)),
      ih (fun c' h => hall c' (List.mem_cons_of_mem c h)) m (acc ++ [c]) hm]
    simp

theorem foldl_insertClip_blocks (blocks : List (List Char × List ClipData)) :
    ∀ m, ((m.map Prod.fst ++ blocks.map Prod.fst).Nodup) →
      (∀ p ∈ blocks, p.2 ≠ [] ∧ ∀ c ∈ p.2, c.youtube_url = p.1) →
      List.foldl insertClip m (joinGroups blocks) = m ++ blocks := by
  induction blocks with
  | nil => intro m _ _; simp [joinGroups]
  | cons p blocks ih =>
    intro m hnd hall
    obtain ⟨u, l⟩ := p
    obtain ⟨hlne, hlurl⟩ := hall (u, l) (List.mem_cons_self _ _)
    rw [List.map_cons] at hnd
    have hu_m : u ∉ m.map Prod.fst := by
      intro hu
      have hdisj := List.disjoint_of_nodup_append hnd
      exact hdisj hu (List.mem_cons_self _ _)
    rw [joinGroups_cons, List.foldl_append]
    obtain ⟨c0, l', rfl⟩ : ∃ c0 l', l = c0 :: l' := by
      cases l with
      | nil => exact absurd rfl hlne
      | cons a b => exact ⟨a, b, rfl⟩
    have hc0 : c0.youtube_url = u := hlurl c0 (List.mem_cons_self _ _)
    have hfold1 : List.foldl insertClip m (c0 :: l') = m ++ [(u, c0 :: l')] := by
      rw [List.foldl_cons, insertClip_not_mem (by rw [hc0]; exact hu_m), hc0,
        foldl_insertClip_last l' (fun c' h => hlurl c' (List.mem_cons_of_mem c0 h))
          m [c0] hu_m]
      rfl
    rw [hfold1]
    have hnd' : ((m ++ [(u, c0 :: l')]).map Prod.fst ++ blocks.map Prod.fst).Nodup := by
      have heq : (m ++ [(u, c0 :: l')]).map Prod.fst ++ blocks.map Prod.fst =
          m.map Prod.fst ++ ((u, c0 :: l').1 :: blocks.map Prod.fst) := by
        simp
      rw [heq]
      exact hnd
    rw [ih _ hnd' (fun p hp => hall p (List.mem_cons_of_mem _ hp))]
    simp

/-! ## Claim theorems: C3 and C4 (grouping) -/

/-- C3 counterexample: the claim states that each group's descriptors
appear in original input order for every descriptor list, but
`group_clips_by_url` sorts each group by `row_number`; on two descriptors
of the same URL with row numbers 2 then 1, the group comes out reversed
relative to the input order. -/
theorem C3_grouping_cex :
    group_clips_by_url
        [⟨"s1".toList, "e1".toList, "https://video.example/a".toList, 2⟩,
         ⟨"s2".toList, "e2".toList, "https://video.example/a".toList, 1⟩] =
      [("https://video.example/a".toList,
        [⟨"s2".toList, "e2".toList, "https://video.example/a".toList, 1⟩,
         ⟨"s1".toList, "e1".toList, "https://video.example/a".toList, 2⟩])] ∧
      (ClipData.mk "s1".toList "e1".toList "https://video.example/a".toList 2) ≠
        (ClipData.mk "s2".toList "e2".toList "https://video.example/a".toList 1) := by
  exact ⟨by decide, by decide⟩

/-- C3 (amended): grouping by target URL partitions the input with no
overlap — the concatenation of the groups is a permutation of the input
and no two groups share a URL — every descriptor in a group shares that
group's URL, and each group's descriptors are stably sorted by row number,
which coincides with original input order whenever row numbers are
non-decreasing along the input (as they are for CSV-loaded descriptors);
on the three-row scenario input the result is exactly the two expected
groups in first-occurrence order. -/
theorem C3_grouping_partition (cs : List ClipData) :
    (∀ u l, (u, l) ∈ group_clips_by_url cs → ∀ c ∈ l, c.youtube_url = u) ∧
      (joinGroups (group_clips_by_url cs)).Perm cs ∧
      ((group_clips_by_url cs).map Prod.fst).Nodup ∧
      (∀ u l, (u, l) ∈ group_clips_by_url cs → l.Sorted rowLe) ∧
      (cs.Pairwise rowLe → ∀ u l, (u, l) ∈ group_clips_by_url cs →
        l = cs.filter (fun c => c.youtube_url = u)) ∧
      group_clips_by_url
          [⟨"00:00:10".toList, "00:00:20".toList, "https://video.example/a".toList, 1⟩,
           ⟨"00:05:00".toList, "00:05:30".toList, "https://video.example/a".toList, 2⟩,
           ⟨"00:00:00".toList, "00:00:05".toList, "https://video.example/b".toList, 3⟩] =
        [("https://video.example/a".toList,
          [⟨"00:00:10".toList, "00:00:20".toList, "https://video.example/a".toList, 1⟩,
           ⟨"00:05:00".toList, "00:05:30".toList, "https://video.example/a".toList, 2⟩]),
         ("https://video.example/b".toList,
          [⟨"00:00:00".toList, "00:00:05".toList, "https://video.example/b".toList, 3⟩])] := by
  refine ⟨?_, joinGroups_group_perm cs, ?_, ?_, ?_, by decide⟩
  · intro u l hul c hc
    obtain ⟨_, hl⟩ := mem_group_iff.mp hul
    subst hl
    have hc' : c ∈ cs.filter (fun c' => c'.youtube_url = u) :=
      ((List.perm_insertionSort rowLe _).mem_iff).mp hc
    simpa using (List.mem_filter.mp hc').2
  · rw [group_clips_by_url_eq, List.map_map,
      show (Prod.fst ∘ fun u => (u, sortRow (cs.filter (fun c => c.youtube_url = u)))) =
        (id : List Char → List Char) from rfl, List.map_id]
    exact newKeys_nodup cs []
  · intro u l hul
    obtain ⟨_, hl⟩ := mem_group_iff.mp hul
    subst hl
    exact List.sorted_insertionSort rowLe _
  · intro hpair u l hul
    obtain ⟨_, hl⟩ := mem_group_iff.mp hul
    subst hl
    have hsorted : List.Sorted rowLe (cs.filter (fun c' => c'.youtube_url = u)) :=
      hpair.sublist (List.filter_sublist cs)
    exact hsorted.insertionSort_eq

/-- Witness for C3 (amended) at the scenario input: the first descriptor of
group "a" carries that group's URL, and with non-decreasing row numbers the
group equals the input's subsequence for that URL. -/
theorem C3_grouping_partition_witness :
    (ClipData.mk "00:00:10".toList "00:00:20".toList
        "https://video.example/a".toList 1).youtube_url =
      "https://video.example/a".toList ∧
      [ClipData.mk "00:00:10".toList "00:00:20".toList "https://video.example/a".toList 1,
       ClipData.mk "00:05:00".toList "00:05:30".toList "https://video.example/a".toList 2] =
        [ClipData.mk "00:00:10".toList "00:00:20".toList "https://video.example/a".toList 1,
         ClipData.mk "00:05:00".toList "00:05:30".toList "https://video.example/a".toList 2,
         ClipData.mk "00:00:00".toList "00:00:05".toList "https://video.example/b".toList 3].filter
          (fun c => c.youtube_url = "https://video.example/a".toList) :=
  have h := C3_grouping_partition
    [ClipData.mk "00:00:10".toList "00:00:20".toList "https://video.example/a".toList 1,
     ClipData.mk "00:05:00".toList "00:05:30".toList "https://video.example/a".toList 2,
     ClipData.mk "00:00:00".toList "00:00:05".toList "https://video.example/b".toList 3]
  ⟨h.1 "https://video.example/a".toList
      [ClipData.mk "00:00:10".toList "00:00:20".toList "https://video.example/a".toList 1,
       ClipData.mk "00:05:00".toList "00:05:30".toList "https://video.example/a".toList 2]
      (by decide)
      (ClipData.mk "00:00:10".toList "00:00:20".toList "https://video.example/a".toList 1)
      (by decide),
   h.2.2.2.2.1 (by decide) "https://video.example/a".toList
      [ClipData.mk "00:00:10".toList "00:00:20".toList "https://video.example/a".toList 1,
       ClipData.mk "00:05:00".toList "00:05:30".toList "https://video.example/a".toList 2]
      (by decide)⟩

/-- C4: grouping is idempotent: feeding the grouped descriptors (the
groups' contents concatenated in group order) back through
`group_clips_by_url` reproduces exactly the same group keys in the same
order with identical descriptor contents and ordering inside each group;
in particular two runs of the grouping over the same list agree, since the
function reads only its input list. -/
theorem C4_group_idempotent (cs : List ClipData) :
    group_clips_by_url (joinGroups (group_clips_by_url cs)) =
      group_clips_by_url cs := by
  have hkeys : (group_clips_by_url cs).map Prod.fst = newKeys [] cs := by
    rw [group_clips_by_url_eq, List.map_map,
      show (Prod.fst ∘ fun u => (u, sortRow (cs.filter (fun c => c.youtube_url = u)))) =
        (id : List Char → List Char) from rfl, List.map_id]
  have hnodup : ((group_clips_by_url cs).map Prod.fst).Nodup := by
    rw [hkeys]
    exact newKeys_nodup cs []
  have hblocks : ∀ p ∈ group_clips_by_url cs,
      p.2 ≠ [] ∧ ∀ c ∈ p.2, c.youtube_url = p.1 := by
    intro p hp
    obtain ⟨u, l⟩ := p
    obtain ⟨hu, hl⟩ := mem_group_iff.mp hp
    subst hl
    constructor
    · obtain ⟨c, hc, hcu⟩ := exists_of_mem_newKeys hu
      intro hnil
      have hcf : c ∈ cs.filter (fun c' => c'.youtube_url = u) :=
        List.mem_filter.mpr ⟨hc, by simp [hcu]⟩
      have hperm : (sortRow (cs.filter (fun c' => c'.youtube_url = u))).Perm
          (cs.filter (fun c' => c'.youtube_url = u)) :=
        List.perm_insertionSort rowLe _
      rw [show sortRow (cs.filter (fun c' => c'.youtube_url = u)) = [] from hnil] at hperm
      rw [hperm.symm.eq_nil] at hcf
      exact List.not_mem_nil c hcf
    · intro c hc
      have hc' : c ∈ cs.filter (fun c' => c'.youtube_url = u) :=
        ((List.perm_insertionSort rowLe _).mem_iff).mp hc
      simpa using (List.mem_filter.mp hc').2
  have hraw : groupRaw (joinGroups (group_clips_by_url cs)) = group_clips_by_url cs := by
    unfold groupRaw
    have := foldl_insertClip_blocks (group_clips_by_url cs) []
      (by simpa using hnodup) hblocks
    simpa using this
  have hpt : ∀ p ∈ group_clips_by_url cs, (p.1, sortRow p.2) = p := by
    intro p hp
    obtain ⟨u, l⟩ := p
    obtain ⟨_, hl⟩ := mem_group_iff.mp hp
    subst hl
    exact congrArg (Prod.mk u) (List.sorted_insertionSort rowLe _).insertionSort_eq
  calc group_clips_by_url (joinGroups (group_clips_by_url cs))
      = (groupRaw (joinGroups (group_clips_by_url cs))).map
          (fun p => (p.1, sortRow p.2)) := rfl
    _ = (group_clips_by_url cs).map (fun p => (p.1, sortRow p.2)) := by rw [hraw]
    _ = (group_clips_by_url cs).map id := List.map_congr_left hpt
    _ = group_clips_by_url cs := List.map_id _

end ClipCutter
